import Mathlib

/-!
# Verification of the multipliers-games casino core

Shallow embedding, in Lean 4, of the Ledger (`src/utils/database.py`), the
blackjack SessionEngine (`src/games/blackjack.py`) and the RateLimiter
(`src/utils/rate_limiter.py`) of the combocooldown/multipliers-games
repository, together with theorems settling the specification claims about
them.

Modelling conventions:
* Python integers are `Int` (balances, amounts, stat counters).
* Timestamps (`time.time()`, `datetime.now()`) are `Int` seconds and are
  passed explicitly as a `now` argument to each operation that reads the
  clock.
* The JSON store is a snapshot value; persistence (`_save_data`) is the
  identity on the in-memory state and is therefore not modelled separately.
* `threading.Lock` serialization is not modelled: operations are functions
  from state to state, i.e. the sequential semantics.
* Dictionaries keyed by user id / game id / action name are association
  lists in insertion order (Python dicts preserve insertion order).
-/

namespace Casino

/-! ## Ledger data model (`Database` in `src/utils/database.py`)

An `Account` models one entry of `data['users']`.  The fields carried here
are the ones the verified operations read or write: `balance`, `total_bet`,
`last_daily`, and the blackjack-related entries of the `stats` dict
(`blackjack_played`, `blackjack_won`, `total_winnings`, `total_losses`,
`biggest_win`, `biggest_loss`).  The remaining stats counters
(slots/roulette/streaks) and the bookkeeping timestamps are never read by
the operations under verification and are omitted. -/

structure Account where
  balance : Int
  totalBet : Int
  lastDaily : Option Int
  blackjackPlayed : Int
  blackjackWon : Int
  totalWinnings : Int
  totalLosses : Int
  biggestWin : Int
  biggestLoss : Int
  deriving DecidableEq, Repr

/-- A freshly created user (`Database.get_user`, the `user_id_str not in
self.data['users']` branch): starting balance 10000, all counters zero,
`last_daily = None`. -/
def freshAccount : Account :=
  { balance := 10000, totalBet := 0, lastDaily := none
    blackjackPlayed := 0, blackjackWon := 0
    totalWinnings := 0, totalLosses := 0
    biggestWin := 0, biggestLoss := 0 }

/-- `Database.add_balance(user_id, amount)`: unconditionally adds `amount`
to the balance.  There is no validation of `amount` anywhere in the
function body. -/
def add_balance (amount : Int) (a : Account) : Account :=
  { a with balance := a.balance + amount }

/-- `Database.subtract_balance(user_id, amount)`: if `balance >= amount`,
subtracts `amount` from `balance`, adds it to `total_bet` and returns
`True`; otherwise returns `False` and mutates nothing. -/
def subtract_balance (amount : Int) (a : Account) : Bool × Account :=
  if a.balance ≥ amount then
    (true, { a with balance := a.balance - amount, totalBet := a.totalBet + amount })
  else
    (false, a)

/-- The stat names of the `stats` dict that the blackjack engine updates. -/
inductive StatName where
  | blackjackPlayed
  | blackjackWon
  | totalWinnings
  | totalLosses
  deriving DecidableEq, Repr

/-- `Database.update_stats(user_id, stat_name, value)`: adds `value` to the
named counter; when the name is `total_winnings` (resp. `total_losses`) and
`value` is positive and exceeds the current `biggest_win` (resp.
`biggest_loss`), the high-water mark is replaced by `value`. -/
def update_stats (stat : StatName) (value : Int) (a : Account) : Account :=
  match stat with
  | .blackjackPlayed => { a with blackjackPlayed := a.blackjackPlayed + value }
  | .blackjackWon => { a with blackjackWon := a.blackjackWon + value }
  | .totalWinnings =>
      let a := { a with totalWinnings := a.totalWinnings + value }
      if value > 0 ∧ value > a.biggestWin then { a with biggestWin := value } else a
  | .totalLosses =>
      let a := { a with totalLosses := a.totalLosses + value }
      if value > 0 ∧ value > a.biggestLoss then { a with biggestLoss := value } else a

/-- `Database.can_claim_daily(user_id)`: `True` iff `last_daily` is unset or
at least 24 hours (86400 seconds) have elapsed since it. -/
def can_claim_daily (now : Int) (a : Account) : Bool :=
  match a.lastDaily with
  | none => true
  | some last => now - last ≥ 86400

/-- `Database.claim_daily(user_id, amount)`: sets `last_daily` to now and
adds `amount` to the balance.  Note that the source performs no
`can_claim_daily` check before doing so. -/
def claim_daily (now : Int) (amount : Int) (a : Account) : Account :=
  add_balance amount { a with lastDaily := some now }

/-! ## Debit/Credit operation sequences (claim C1) -/

/-- One ledger balance operation on a single account: a `Debit` is
`subtract_balance`, a `Credit` is `add_balance`. -/
inductive Op where
  | debit (amount : Int)
  | credit (amount : Int)
  deriving DecidableEq, Repr

/-- Apply one operation (the debit's success bit is dropped, only the
resulting account state is kept). -/
def applyOp (a : Account) : Op → Account
  | .debit amount => (subtract_balance amount a).2
  | .credit amount => add_balance amount a

/-- Apply a sequence of operations left to right. -/
def applyOps (a : Account) : List Op → Account
  | [] => a
  | op :: ops => applyOps (applyOp a op) ops

/-- The credit amounts appearing in a sequence of operations. -/
def creditAmounts : List Op → List Int
  | [] => []
  | .credit amount :: ops => amount :: creditAmounts ops
  | .debit _ :: ops => creditAmounts ops

/-! ## Leaderboard and rank (claim C9)

`Database.get_leaderboard` iterates `self.data['users'].items()` (insertion
order), extracts `(user_id, balance, ...)` records, sorts them by balance
descending with Python's stable `list.sort(..., reverse=True)` and returns
the first `limit`.  The store is modelled as the insertion-ordered
association list of accounts, each leaderboard record by the pair
`(user_id, balance)` (the extra copied fields `total_bet`, `total_won`,
`games_played` are never consulted by rank or ordering).  Python's sort is
stable; so is the insertion sort below, which therefore computes the same
output. -/

abbrev Store := List (Nat × Account)

/-- Stable insertion of a record into a balance-descending sorted list: the
record goes right after the records with a strictly larger balance.  Since
`sortDesc` inserts from the right end of the input, an earlier record is
inserted into a list of later ones and lands before those with an equal
balance — Python's stable-sort tie-break. -/
def insertDesc (x : Nat × Int) : List (Nat × Int) → List (Nat × Int)
  | [] => [x]
  | y :: ys => if x.2 ≥ y.2 then x :: y :: ys else y :: insertDesc x ys

/-- Stable sort by balance descending (the behaviour of
`users.sort(key=lambda x: x['balance'], reverse=True)`). -/
def sortDesc : List (Nat × Int) → List (Nat × Int)
  | [] => []
  | x :: xs => insertDesc x (sortDesc xs)

/-- The records `get_leaderboard` builds before sorting, in dict insertion
order. -/
def storeRecords (s : Store) : List (Nat × Int) :=
  s.map fun p => (p.1, p.2.balance)

/-- `Database.get_leaderboard(limit)`: sort all records by balance
descending (stable) and take the first `limit`. -/
def get_leaderboard (s : Store) (limit : Nat) : List (Nat × Int) :=
  (sortDesc (storeRecords s)).take limit

/-- The `for i, user in enumerate(leaderboard): if user['user_id'] ==
user_id: return i + 1` loop of `get_user_rank`: the 1-based position of the
first record for `uid`, if any. -/
def rankScan (uid : Nat) : List (Nat × Int) → Option Nat
  | [] => none
  | e :: rest => if e.1 == uid then some 1 else (rankScan uid rest).map (· + 1)

/-- `Database.get_user_rank(user_id)`: scan `get_leaderboard(limit=1000)`
for the user's 1-based position, or return `len(leaderboard) + 1` when the
user is not among those entries. -/
def get_user_rank (s : Store) (uid : Nat) : Nat :=
  let lb := get_leaderboard s 1000
  match rankScan uid lb with
  | some r => r
  | none => lb.length + 1

/-- Modelled from the spec: `Rank(user)` as "the 1-based position of the
user in the full ordering of all accounts sorted by balance descending,
ties broken by insertion order" — the same stable descending sort, but over
the whole store with no truncation. -/
def fullRank (s : Store) (uid : Nat) : Option Nat :=
  rankScan uid (sortDesc (storeRecords s))

/-! ## Cards and hand evaluation (`BlackjackGame` in `src/games/blackjack.py`) -/

/-- The thirteen ranks of `BlackjackGame.ranks`. -/
inductive Rank where
  | ace | two | three | four | five | six | seven | eight | nine | ten
  | jack | queen | king
  deriving DecidableEq, Repr

/-- A card is a rank and a suit (`{'rank': ..., 'suit': ...}`); the suit is
display-only, modelled as its index in `BlackjackGame.suits`. -/
structure Card where
  rank : Rank
  suit : Nat
  deriving DecidableEq, Repr

/-- Build a card of an arbitrary (first) suit, for concrete hands. -/
def c (r : Rank) : Card := ⟨r, 0⟩

/-- `BlackjackGame.card_values` / `card_value`: ace 11, face cards 10,
numerals their face value. -/
def card_value (card : Card) : Nat :=
  match card.rank with
  | .ace => 11
  | .two => 2
  | .three => 3
  | .four => 4
  | .five => 5
  | .six => 6
  | .seven => 7
  | .eight => 8
  | .nine => 9
  | .ten => 10
  | .jack => 10
  | .queen => 10
  | .king => 10

/-- The first loop of `BlackjackGame.hand_value`: the raw sum of card
values, every ace counted as 11. -/
def rawSum (hand : List Card) : Nat :=
  (hand.map card_value).sum

/-- The ace count accumulated by the first loop of `hand_value`. -/
def countAces (hand : List Card) : Nat :=
  hand.countP (fun card => card.rank == Rank.ace)

/-- The `while value > 21 and aces > 0: value -= 10; aces -= 1` loop of
`hand_value`, recursing on the number of aces still counted as 11. -/
def demote : Nat → Nat → Nat
  | v, 0 => v
  | v, a + 1 => if 21 < v then demote (v - 10) a else v

/-- `BlackjackGame.hand_value(hand)`: raw sum with aces as 11, then demote
aces one by one while the total exceeds 21. -/
def hand_value (hand : List Card) : Nat :=
  demote (rawSum hand) (countAces hand)

/-- The number of aces still counted as 11 once `hand_value`'s demotion
loop stops (the final value of the loop's `aces` variable). -/
def demoteLeft : Nat → Nat → Nat
  | _, 0 => 0
  | v, a + 1 => if 21 < v then demoteLeft (v - 10) a else a + 1

/-- `BlackjackGame.is_blackjack(hand)`: exactly two cards of value 21. -/
def is_blackjack (hand : List Card) : Bool :=
  hand.length == 2 && hand_value hand == 21

/-- The fold inside `BlackjackGame.should_dealer_hit`'s `value == 17`
branch: walks the hand accumulating `temp_value`, setting `has_ace_as_11`
when an ace's arrival leaves the running total at most 17.  Returns
`(temp_value, has_ace_as_11)`. -/
def softSeventeenScan (hand : List Card) : Nat × Bool :=
  hand.foldl
    (fun acc card =>
      if card.rank == Rank.ace then
        (acc.1 + 11, acc.2 || decide (acc.1 + 11 ≤ 17))
      else
        (acc.1 + card_value card, acc.2))
    (0, false)

/-- `BlackjackGame.should_dealer_hit(dealer_hand)`: hit below 17; at
exactly 17, hit iff the scan above flags an ace counted as 11 and its final
`temp_value` equals 17; stand otherwise. -/
def should_dealer_hit (hand : List Card) : Bool :=
  let value := hand_value hand
  if value < 17 then true
  else if value = 17 then
    let scan := softSeventeenScan hand
    scan.2 && scan.1 == 17
  else false

/-- Modelled from the spec (glossary "Soft total" and the `Stand` dealer
policy): a hand is a soft 17 when its value is 17 and that total is
achieved only by counting an ace as 11, i.e. at least one ace is still
counted as 11 after `hand_value`'s demotion. -/
def specSoftSeventeen (hand : List Card) : Bool :=
  hand_value hand == 17 && demoteLeft (rawSum hand) (countAces hand) != 0

/-- Modelled from the spec: the dealer drawing policy — draw while the
total is below 17, or the total is exactly 17 and soft. -/
def specDealerDraws (hand : List Card) : Bool :=
  hand_value hand < 17 || specSoftSeventeen hand

/-! ## Store-level ledger operations

`Database` methods act on `self.data['users']`, a dict from user-id string
to account, modelled as the insertion-ordered association list `Store`.
Each mutator goes through `get_user`, which creates a missing account (new
dict keys append at the end). -/

/-- Look up a user's account. -/
def lookupAccount (uid : Nat) (s : Store) : Option Account :=
  (s.find? (fun p => p.1 == uid)).map (·.2)

/-- The creating half of `Database.get_user`: add a fresh account when the
user is absent. -/
def ensureUser (uid : Nat) (s : Store) : Store :=
  match lookupAccount uid s with
  | some _ => s
  | none => s ++ [(uid, freshAccount)]

/-- Replace a user's account in place. -/
def setUser (uid : Nat) (a : Account) (s : Store) : Store :=
  s.map fun p => if p.1 == uid then (p.1, a) else p

/-- `Database.add_balance` at store level. -/
def addBalanceStore (uid : Nat) (amount : Int) (s : Store) : Store :=
  let s := ensureUser uid s
  let a := (lookupAccount uid s).getD freshAccount
  setUser uid (add_balance amount a) s

/-- `Database.subtract_balance` at store level. -/
def subtractBalanceStore (uid : Nat) (amount : Int) (s : Store) : Bool × Store :=
  let s := ensureUser uid s
  let a := (lookupAccount uid s).getD freshAccount
  let r := subtract_balance amount a
  (r.1, setUser uid r.2 s)

/-- `Database.update_stats` at store level. -/
def updateStatsStore (uid : Nat) (stat : StatName) (value : Int) (s : Store) : Store :=
  let s := ensureUser uid s
  let a := (lookupAccount uid s).getD freshAccount
  setUser uid (update_stats stat value a) s

/-! ## Blackjack session engine

`BlackjackGame` keeps `active_games`, a dict from uuid string to the
mutable game dict; uuids are modelled as caller-supplied `Nat` identifiers
(`uuid.uuid4()` is an external source of fresh names), and the shuffled
deck produced by `create_deck` is likewise an input (`random.shuffle` is
external randomness).  The source draws with `deck.pop()` from the end of
the Python list; the model's `deck` lists cards in draw order, so a pop is
the head. -/

/-- `game_state` field values `'playing'` / `'finished'`. -/
inductive GamePhase where
  | playing
  | finished
  deriving DecidableEq, Repr

/-- The `result` strings a blackjack game can end with. -/
inductive GameResult where
  | push | playerBlackjack | dealerBlackjack
  | playerBust | dealerBust | playerWins | dealerWins
  deriving DecidableEq, Repr

/-- One entry of `active_games` (plus the result fields of games resolved
immediately): the game dict built in `BlackjackGame.play`. -/
structure Session where
  userId : Nat
  bet : Int
  deck : List Card
  playerHand : List Card
  dealerHand : List Card
  gameState : GamePhase
  result : Option GameResult
  deriving DecidableEq, Repr

/-- The engine's mutable state: the active-session table and the ledger
store it debits/credits. -/
structure EngineState where
  games : List (Nat × Session)
  db : Store
  deriving DecidableEq, Repr

/-- Look up an active session. -/
def lookupGame (gid : Nat) (games : List (Nat × Session)) : Option Session :=
  (games.find? (fun p => p.1 == gid)).map (·.2)

/-- `del self.active_games[game_id]`. -/
def eraseGame (gid : Nat) (games : List (Nat × Session)) : List (Nat × Session) :=
  games.filter fun p => p.1 != gid

/-- In-place mutation of the session dict stored under `gid`. -/
def setGame (gid : Nat) (g : Session) (games : List (Nat × Session)) :
    List (Nat × Session) :=
  games.map fun p => if p.1 == gid then (p.1, g) else p

/-- The stats part of `BlackjackGame._finish_game`: wins bump
`blackjack_won` and add the net gain (`int(bet * 1.5)` for a natural, the
bet otherwise) to `total_winnings`; losses add the bet to `total_losses`;
a push touches nothing. -/
def finishStats (g : Session) (db : Store) : Store :=
  match g.result with
  | some r =>
      if r = .playerBlackjack ∨ r = .playerWins ∨ r = .dealerBust then
        let db := updateStatsStore g.userId .blackjackWon 1 db
        let winnings := if r = .playerBlackjack then Int.tdiv (g.bet * 3) 2 else g.bet
        updateStatsStore g.userId .totalWinnings winnings db
      else if r = .dealerBlackjack ∨ r = .dealerWins ∨ r = .playerBust then
        updateStatsStore g.userId .totalLosses g.bet db
      else db
  | none => db

/-- `BlackjackGame._finish_game(game_id)`: when the id is active, update
the win/loss statistics from its result and delete it from the table. -/
def finish_game (gid : Nat) (st : EngineState) : EngineState :=
  match lookupGame gid st.games with
  | none => st
  | some g => { games := eraseGame gid st.games, db := finishStats g st.db }

/-- What `play` returns to its caller: the formatted game state, or the
`IndexError` the source would raise popping an exhausted deck. -/
inductive PlayOutcome where
  | view (g : Session)
  | deckEmpty
  deriving DecidableEq, Repr

/-- What `hit`/`stand` return: the formatted game state, the
`{'error': 'Game not found or already finished'}` dict, or the
deck-exhaustion `IndexError`. -/
inductive ActOutcome where
  | view (g : Session)
  | notFound
  | deckEmpty
  deriving DecidableEq, Repr

/-- `BlackjackGame.play(user_id, bet)` with the shuffled deck and the fresh
game id supplied as inputs.  Note the source calls
`self.db.subtract_balance(user_id, bet)` and discards its boolean result:
the round proceeds identically whether or not the debit succeeded. -/
def play (deckInput : List Card) (uid : Nat) (bet : Int) (gid : Nat)
    (st : EngineState) : EngineState × PlayOutcome :=
  let db1 := (subtractBalanceStore uid bet st.db).2
  match deckInput with
  | c1 :: c2 :: c3 :: c4 :: rest =>
      let playerHand := [c1, c2]
      let dealerHand := [c3, c4]
      let playerBJ := is_blackjack playerHand
      let dealerBJ := is_blackjack dealerHand
      let g0 : Session :=
        { userId := uid, bet := bet, deck := rest
          playerHand := playerHand, dealerHand := dealerHand
          gameState := .playing, result := none }
      let step : List (Nat × Session) × Store × Session :=
        if playerBJ && dealerBJ then
          -- push: return the bet
          (st.games, addBalanceStore uid bet db1,
            { g0 with gameState := .finished, result := some .push })
        else if playerBJ then
          -- natural pays 3:2, i.e. a credit of int(bet * 2.5)
          (st.games, addBalanceStore uid (Int.tdiv (bet * 5) 2) db1,
            { g0 with gameState := .finished, result := some .playerBlackjack })
        else if dealerBJ then
          (st.games, db1,
            { g0 with gameState := .finished, result := some .dealerBlackjack })
        else
          (st.games ++ [(gid, g0)], db1, g0)
      let db2 := updateStatsStore uid .blackjackPlayed 1 step.2.1
      ({ games := step.1, db := db2 }, .view step.2.2)
  | _ => ({ st with db := db1 }, .deckEmpty)

/-- `BlackjackGame.hit(game_id)`: unknown id errors with no mutation;
otherwise one card goes to the player, and a total over 21 finishes the
round as a player bust via `_finish_game`. -/
def hit (gid : Nat) (st : EngineState) : EngineState × ActOutcome :=
  match lookupGame gid st.games with
  | none => (st, .notFound)
  | some g =>
      match g.deck with
      | [] => (st, .deckEmpty)
      | card :: rest =>
          let hand := g.playerHand ++ [card]
          if 21 < hand_value hand then
            let g' := { g with deck := rest, playerHand := hand
                               gameState := .finished, result := some .playerBust }
            (finish_game gid { st with games := setGame gid g' st.games }, .view g')
          else
            let g' := { g with deck := rest, playerHand := hand }
            ({ st with games := setGame gid g' st.games }, .view g')

/-- The dealer loop of `BlackjackGame.stand`: draw while
`should_dealer_hit` says so.  (On an exhausted deck the source's `pop`
would raise; the model stops, a case no verified claim reaches.)  Returns
the final dealer hand and the remaining deck. -/
def dealerPlay : List Card → List Card → List Card × List Card
  | [], hand => (hand, [])
  | card :: rest, hand =>
      if should_dealer_hit hand then dealerPlay rest (hand ++ [card])
      else (hand, card :: rest)

/-- `BlackjackGame.stand(game_id)`: unknown id errors with no mutation;
otherwise the dealer plays out, the totals are compared (dealer bust or
strictly greater player total pays 2x, a tie returns the bet), and the
round finishes via `_finish_game`. -/
def stand (gid : Nat) (st : EngineState) : EngineState × ActOutcome :=
  match lookupGame gid st.games with
  | none => (st, .notFound)
  | some g =>
      let d := dealerPlay g.deck g.dealerHand
      let pv := hand_value g.playerHand
      let dv := hand_value d.1
      let outcome : Store × GameResult :=
        if 21 < dv then
          (addBalanceStore g.userId (g.bet * 2) st.db, .dealerBust)
        else if dv < pv then
          (addBalanceStore g.userId (g.bet * 2) st.db, .playerWins)
        else if pv < dv then
          (st.db, .dealerWins)
        else
          (addBalanceStore g.userId g.bet st.db, .push)
      let g' := { g with deck := d.2, dealerHand := d.1
                         gameState := .finished, result := some outcome.2 }
      let st1 : EngineState := { games := setGame gid g' st.games, db := outcome.1 }
      (finish_game gid st1, .view g')

/-! ## Rate limiter (`RateLimiter` in `src/utils/rate_limiter.py`)

`self.user_cooldowns` is a `defaultdict(dict)` from user-id string to a
dict from action name to last-invocation time; `self.cooldowns` maps action
names to cooldown durations.  Both are insertion-ordered association
lists here.  (Reading `self.user_cooldowns[user_id_str]` on a miss inserts
an empty dict as a side effect; that empty entry is invisible to every
lookup and to `cleanup_old_entries`, which drops empty users, so the model
omits it.) -/

/-- The whole rate-limiter state. -/
structure RLState where
  cooldowns : List (String × Int)
  userCooldowns : List (Nat × List (String × Int))
  deriving DecidableEq, Repr

/-- The cooldown table built in `RateLimiter.__init__`. -/
def defaultCooldowns : List (String × Int) :=
  [("game", 3), ("balance", 5), ("daily", 86400), ("leaderboard", 10), ("stats", 5)]

/-- Association-list lookup of an action's entry. -/
def lookupAction (action : String) (m : List (String × Int)) : Option Int :=
  (m.find? (fun p => p.1 == action)).map (·.2)

/-- The inner dict of a user, empty when the user has no entry. -/
def userActions (uid : Nat) (ucs : List (Nat × List (String × Int))) :
    List (String × Int) :=
  ((ucs.find? (fun p => p.1 == uid)).map (·.2)).getD []

/-- `self.user_cooldowns[user_id_str][action] = current_time`: write the
action's timestamp in the user's dict, creating entries as `defaultdict`
does. -/
def recordTime (uid : Nat) (action : String) (now : Int)
    (ucs : List (Nat × List (String × Int))) : List (Nat × List (String × Int)) :=
  let setAction (m : List (String × Int)) : List (String × Int) :=
    if m.any (fun p => p.1 == action) then
      m.map fun p => if p.1 == action then (p.1, now) else p
    else m ++ [(action, now)]
  if ucs.any (fun p => p.1 == uid) then
    ucs.map fun p => if p.1 == uid then (p.1, setAction p.2) else p
  else ucs ++ [(uid, setAction [])]

/-- `RateLimiter.check_rate_limit(user_id, action)`: unknown actions are
always allowed (and record nothing); a known action is denied, with no
state change, while `now - last < cooldown`; otherwise the timestamp is set
to `now` and the action allowed. -/
def check_rate_limit (st : RLState) (now : Int) (uid : Nat) (action : String) :
    Bool × RLState :=
  match lookupAction action st.cooldowns with
  | none => (true, st)
  | some cd =>
      match lookupAction action (userActions uid st.userCooldowns) with
      | some last =>
          if now - last < cd then (false, st)
          else (true, { st with userCooldowns := recordTime uid action now st.userCooldowns })
      | none => (true, { st with userCooldowns := recordTime uid action now st.userCooldowns })

/-- `RateLimiter.cleanup_old_entries(max_age_hours)`: drop every
`(action, last)` entry with `now - last > max_age_hours * 3600`, then drop
users whose dict became empty. -/
def cleanup_old_entries (now : Int) (maxAgeHours : Int) (st : RLState) : RLState :=
  let maxAge := maxAgeHours * 3600
  let swept := st.userCooldowns.map
    (fun p => (p.1, p.2.filter (fun q => !(now - q.2 > maxAge))))
  { st with userCooldowns := swept.filter (fun p => !p.2.isEmpty) }

/-! ## Concrete scenarios used by the theorems -/

/-- All credit amounts of an operation sequence are non-negative. -/
def creditsNonneg (ops : List Op) : Bool :=
  (creditAmounts ops).all (fun x => decide (0 ≤ x))

/-- A store holding one user whose balance has been emptied. -/
def brokeDb : Store := [(7, { freshAccount with balance := 0 })]

/-- An engine with no active sessions over the empty-balance store. -/
def brokeSt : EngineState := { games := [], db := brokeDb }

/-- A shuffled deck yielding no naturals: player 2+3, dealer 4+5. -/
def deckPlain : List Card := [c .two, c .three, c .four, c .five, c .six, c .seven]

/-- A shuffled deck dealing the player a natural blackjack (A+K). -/
def deckNat : List Card := [c .ace, c .king, c .five, c .six, c .two]

/-- A shuffled deck dealing the dealer a natural blackjack. -/
def deckDealerNat : List Card := [c .five, c .six, c .ace, c .king, c .two]

/-- An engine with no active sessions over a store with one fresh user. -/
def richSt : EngineState := { games := [], db := [(7, freshAccount)] }

/-- A mid-round session: player stands on 19 against a dealer hard 17. -/
def standSession : Session :=
  { userId := 7, bet := 100, deck := [c .two], playerHand := [c .ten, c .nine],
    dealerHand := [c .ten, c .seven], gameState := .playing, result := none }

/-- The engine holding `standSession` under id 9. -/
def stStand : EngineState := { games := [(9, standSession)], db := [(7, freshAccount)] }

/-- The account after the player wins the stand: paid 2x the bet, one
blackjack win recorded, the net gain recorded as winnings. -/
def standExpected : Account :=
  { freshAccount with balance := 10200, blackjackWon := 1, totalWinnings := 100, biggestWin := 100 }

/-- The account after `play` resolves a natural player blackjack: the 100
stake debited, the 250 payout credited, one game played — but no win and
no winnings recorded. -/
def natBlackjackAccount : Account :=
  { freshAccount with balance := 10150, totalBet := 100, blackjackPlayed := 1 }

/-- The finished game `play` returns on the natural-blackjack deal. -/
def natBlackjackView : Session :=
  { userId := 7, bet := 100, deck := [c .two], playerHand := [c .ace, c .king],
    dealerHand := [c .five, c .six], gameState := .finished,
    result := some .playerBlackjack }

/-- The account after `play` resolves a natural dealer blackjack: the
stake is lost, one game played — but no loss recorded. -/
def dealerNatAccount : Account :=
  { freshAccount with balance := 9900, totalBet := 100, blackjackPlayed := 1 }

/-! ## C1 — debit/credit safety -/

/-- Claim C1: a failing `Debit` (amount over balance) returns false and
changes nothing; a succeeding `Debit` moves the amount from `balance` to
`total_bet` and returns true; and under any sequence of debits and credits
whose credit amounts are all non-negative, a non-negative balance stays
non-negative. -/
theorem debit_credit_balance_nonneg (a b : Account) (ops : List Op) (amtF amtS : Int)
    (h0 : 0 ≤ a.balance) (hc : creditsNonneg ops = true)
    (hF : amtF > b.balance) (hS : amtS ≤ b.balance) :
    subtract_balance amtF b = (false, b) ∧
    subtract_balance amtS b =
      (true, { b with balance := b.balance - amtS, totalBet := b.totalBet + amtS }) ∧
    0 ≤ (applyOps a ops).balance := by
  refine ⟨?_, ?_, ?_⟩
  · simp only [subtract_balance, ge_iff_le]
    rw [if_neg (by omega)]
  · simp only [subtract_balance, ge_iff_le]
    rw [if_pos (by omega)]
  · clear hF hS
    induction ops generalizing a with
    | nil => exact h0
    | cons op ops ih =>
        show 0 ≤ (applyOps (applyOp a op) ops).balance
        cases op with
        | debit amount =>
            have hc' : creditsNonneg ops = true := by
              simpa [creditsNonneg, creditAmounts] using hc
            refine ih _ ?_ hc'
            simp only [applyOp, subtract_balance, ge_iff_le]
            by_cases h : amount ≤ a.balance
            · rw [if_pos h]
              dsimp only
              omega
            · rw [if_neg h]
              exact h0
        | credit amount =>
            have hc' : (0 ≤ amount) ∧ creditsNonneg ops = true := by
              simpa [creditsNonneg, creditAmounts] using hc
            refine ih _ ?_ hc'.2
            simp only [applyOp, add_balance]
            have := hc'.1
            omega

/-- Witness for C1 at a concrete account and operation sequence. -/
theorem debit_credit_balance_nonneg_witness :
    (0:Int) ≤ freshAccount.balance ∧
    creditsNonneg [Op.debit 9000, Op.credit 200, Op.debit 20000] = true ∧
    (20000:Int) > freshAccount.balance ∧
    (9000:Int) ≤ freshAccount.balance ∧
    (subtract_balance 20000 freshAccount = (false, freshAccount) ∧
      subtract_balance 9000 freshAccount = (true, { freshAccount with balance := freshAccount.balance - 9000, totalBet := freshAccount.totalBet + 9000 }) ∧
      0 ≤ (applyOps freshAccount [Op.debit 9000, Op.credit 200, Op.debit 20000]).balance) :=
  ⟨by decide, by decide, by decide, by decide,
    debit_credit_balance_nonneg freshAccount freshAccount
      [Op.debit 9000, Op.credit 200, Op.debit 20000] 20000 9000
      (by decide) (by decide) (by decide) (by decide)⟩

/-! ## C2 — `play` proceeds despite a failed debit -/

/-- Claim C2 is violated: `BlackjackGame.play` discards the result of
`subtract_balance`.  With a zero balance and a 100 bet the debit fails,
yet a session is registered in `active_games` (first deck), and with a
natural-blackjack deal the 250 payout is even credited to an account that
never paid the stake. -/
theorem play_ignores_failed_debit :
    (subtractBalanceStore 7 100 brokeDb).1 = false ∧
    (lookupGame 42 (play deckPlain 7 100 42 brokeSt).1.games).isSome = true ∧
    (play deckPlain 7 100 42 brokeSt).2 ≠ PlayOutcome.deckEmpty ∧
    (lookupAccount 7 (play deckNat 7 100 43 brokeSt).1.db).map (fun a => a.balance) =
      some 250 := by
  refine ⟨by decide, by decide, by decide, by decide⟩

/-! ## C3 — `claim_daily` never checks `can_claim_daily` -/

/-- Claim C3 is violated: one hour after a first claim `can_claim_daily`
is false, yet a second `claim_daily` still moves the timestamp and credits
the amount (the source performs no eligibility check). -/
theorem claim_daily_unchecked :
    can_claim_daily 3600 (claim_daily 0 1000 freshAccount) = false ∧
    claim_daily 3600 1000 (claim_daily 0 1000 freshAccount) =
      { freshAccount with balance := 12000, lastDaily := some 3600 } := by
  refine ⟨by decide, by decide⟩

/-! ## C4 — natural resolutions at `Start` skip the win/loss statistics -/

/-- Claim C4 is violated at `Start`: a natural player blackjack credits the
250 payout but leaves `blackjack_won` and `total_winnings` at zero, and a
natural dealer blackjack leaves `total_losses` at zero — only games that
reach `_finish_game` via `hit`/`stand` update those counters (the `stand`
win shown last does record them). -/
theorem natural_blackjack_skips_stats :
    (play deckNat 7 100 44 richSt).1.db = [(7, natBlackjackAccount)] ∧
    (play deckNat 7 100 44 richSt).2 = PlayOutcome.view natBlackjackView ∧
    (play deckDealerNat 7 100 45 richSt).1.db = [(7, dealerNatAccount)] ∧
    (stand 9 stStand).1.db = [(7, standExpected)] := by
  refine ⟨by decide, by decide, by decide, by decide⟩

/-! ## C5 — the dealer misses multi-ace soft 17s -/

/-- Claim C5 is violated: `{A, A, 5}` has value 17 achieved only with an
ace counted as 11 (a soft 17, which the spec's policy draws on), but
`should_dealer_hit` stops because its scan compares the raw all-aces-11
sum 27 with 17.  The claim's own examples `{A, 6}` and `{10, 7}` do behave
as stated. -/
theorem dealer_soft_seventeen_missed :
    should_dealer_hit [c .ace, c .ace, c .five] = false ∧
    hand_value [c .ace, c .ace, c .five] = 17 ∧
    specSoftSeventeen [c .ace, c .ace, c .five] = true ∧
    specDealerDraws [c .ace, c .ace, c .five] = true ∧
    should_dealer_hit [c .ace, c .six] = true ∧
    should_dealer_hit [c .ten, c .seven] = false := by
  refine ⟨by decide, by decide, by decide, by decide, by decide, by decide⟩

/-! ## C6 — the hand-value computation -/

/-- The postcondition of `hand_value`'s demotion loop: some number `k` of
aces is re-counted from 11 to 1 (10 subtracted each), the loop stops only
at a total of at most 21 or with no ace left, and every demotion taken was
forced by a total still above 21. -/
theorem demote_spec (aces value : Nat) :
    ∃ k, k ≤ aces ∧ demote value aces = value - 10 * k ∧
      (demote value aces ≤ 21 ∨ k = aces) ∧
      (∀ j < k, 21 < value - 10 * j) := by
  induction aces generalizing value with
  | zero => exact ⟨0, by simp [demote]⟩
  | succ a ih =>
      by_cases h : 21 < value
      · obtain ⟨k, hk, hval, hstop, hall⟩ := ih (value - 10)
        refine ⟨k + 1, by omega, ?_, ?_, ?_⟩
        · simp only [demote, if_pos h]
          omega
        · simp only [demote, if_pos h]
          omega
        · intro j hj
          cases j with
          | zero => simpa using h
          | succ i => have := hall i (by omega); omega
      · refine ⟨0, by omega, ?_, Or.inl ?_, ?_⟩
        · simp only [demote, if_neg h]
          omega
        · simp only [demote, if_neg h]
          omega
        · intro j hj
          omega

/-- Claim C6: the hand value is the rank sum (aces as 11) with one ace
re-counted as 1 while the total exceeds 21 and an ace remains, and the
spec's four sample hands evaluate as stated. -/
theorem hand_value_spec (hand : List Card) :
    (∃ k, k ≤ countAces hand ∧
      hand_value hand = rawSum hand - 10 * k ∧
      (hand_value hand ≤ 21 ∨ k = countAces hand) ∧
      (∀ j < k, 21 < rawSum hand - 10 * j)) ∧
    hand_value [c .ace, c .ace, c .nine] = 21 ∧
    hand_value [c .ace, c .ace, c .ace, c .eight] = 21 ∧
    hand_value [c .king, c .queen] = 20 ∧
    is_blackjack [c .ace, c .king] = true :=
  ⟨demote_spec (countAces hand) (rawSum hand), by decide, by decide, by decide, by decide⟩

/-! ## C10 — `add_balance` validates nothing -/

/-- Claim C10: `add_balance` unconditionally adds any amount — zero or
negative included — to the balance and can never fail; crediting a
negative amount can drive a balance negative. -/
theorem add_balance_no_validation :
    (∀ (a : Account) (amount : Int),
      add_balance amount a = { a with balance := a.balance + amount }) ∧
    (add_balance (-20000) freshAccount).balance = -10000 :=
  ⟨fun _ _ => rfl, by decide⟩

/-! ## C7 — the active table never holds a finished session -/

/-- No session held in the active table is in the `finished` phase. -/
def noFinished (games : List (Nat × Session)) : Bool :=
  games.all (fun p => p.2.gameState == GamePhase.playing)

theorem noFinished_iff {games : List (Nat × Session)} :
    noFinished games = true ↔ ∀ p ∈ games, p.2.gameState = GamePhase.playing := by
  simp [noFinished, List.all_eq_true]

theorem lookup_playing {gid : Nat} {games : List (Nat × Session)} {g : Session}
    (hl : lookupGame gid games = some g) (h : noFinished games = true) :
    g.gameState = GamePhase.playing := by
  rw [noFinished_iff] at h
  simp only [lookupGame, Option.map_eq_some'] at hl
  obtain ⟨p, hp, rfl⟩ := hl
  exact h p (List.mem_of_find?_eq_some hp)

theorem noFinished_set {gid : Nat} {g : Session} {games : List (Nat × Session)}
    (hg : g.gameState = GamePhase.playing) (h : noFinished games = true) :
    noFinished (setGame gid g games) = true := by
  rw [noFinished_iff] at h ⊢
  intro p hp
  simp only [setGame, List.mem_map] at hp
  obtain ⟨q, hq, rfl⟩ := hp
  split
  · exact hg
  · exact h q hq

/-- Every table entry at a key other than `gid` is still playing. -/
def playingExcept (gid : Nat) (games : List (Nat × Session)) : Prop :=
  ∀ p ∈ games, p.1 ≠ gid → p.2.gameState = GamePhase.playing

theorem set_playing_except {gid : Nat} {g : Session} {games : List (Nat × Session)}
    (h : noFinished games = true) : playingExcept gid (setGame gid g games) := by
  intro p hp hne
  rw [noFinished_iff] at h
  simp only [setGame, List.mem_map] at hp
  obtain ⟨q, hq, rfl⟩ := hp
  by_cases hk : (q.1 == gid) = true
  · rw [if_pos hk] at hne
    exact absurd (by simpa using hk) hne
  · rw [if_neg hk]
    exact h q hq

theorem noFinished_finish (gid : Nat) (st : EngineState)
    (h : playingExcept gid st.games) :
    noFinished (finish_game gid st).games = true := by
  cases hl : lookupGame gid st.games with
  | none =>
      simp only [finish_game, hl]
      rw [noFinished_iff]
      intro p hp
      refine h p hp ?_
      simp only [lookupGame, Option.map_eq_none', List.find?_eq_none] at hl
      simpa using hl p hp
  | some g =>
      simp only [finish_game, hl]
      rw [noFinished_iff]
      intro p hp
      simp only [eraseGame, List.mem_filter, bne_iff_ne, ne_eq] at hp
      exact h p hp.1 hp.2

/-- Claim C7: `hit` and `stand` addressed to an id absent from the active
table fail with the not-found error and leave the whole engine state
untouched, and `hit`, `stand` and `play` all preserve the invariant that
no session held in the table is finished (every transition to `finished`
removes the session in the same step). -/
theorem session_lifecycle (st : EngineState) (gidMiss gid uid : Nat) (bet : Int)
    (deckInput : List Card)
    (hinv : noFinished st.games = true)
    (hmiss : lookupGame gidMiss st.games = none) :
    hit gidMiss st = (st, ActOutcome.notFound) ∧
    stand gidMiss st = (st, ActOutcome.notFound) ∧
    noFinished (hit gid st).1.games = true ∧
    noFinished (stand gid st).1.games = true ∧
    noFinished (play deckInput uid bet gid st).1.games = true := by
  refine ⟨by simp [hit, hmiss], by simp [stand, hmiss], ?_, ?_, ?_⟩
  · cases hl : lookupGame gid st.games with
    | none => simpa [hit, hl] using hinv
    | some g =>
        cases hd : g.deck with
        | nil => simpa [hit, hl, hd] using hinv
        | cons card rest =>
            simp only [hit, hl, hd]
            by_cases hb : 21 < hand_value (g.playerHand ++ [card])
            · simp only [if_pos hb]
              exact noFinished_finish gid _ (set_playing_except hinv)
            · simp only [if_neg hb]
              refine noFinished_set ?_ hinv
              have hgp : g.gameState = GamePhase.playing := lookup_playing hl hinv
              exact hgp
  · cases hl : lookupGame gid st.games with
    | none => simpa [stand, hl] using hinv
    | some g =>
        simp only [stand, hl]
        exact noFinished_finish gid _ (set_playing_except hinv)
  · match deckInput with
    | [] => simpa [play] using hinv
    | [c1] => simpa [play] using hinv
    | [c1, c2] => simpa [play] using hinv
    | [c1, c2, c3] => simpa [play] using hinv
    | c1 :: c2 :: c3 :: c4 :: rest =>
        simp only [play]
        split_ifs with h1 h2 h3
        · simpa using hinv
        · simpa using hinv
        · simpa using hinv
        · simp only [List.all_append, noFinished, List.all_cons, List.all_nil]
          rw [noFinished] at hinv
          simp [hinv]

/-- The engine holding the single playing session `standSession`. -/
def lifecycleSt : EngineState := { games := [(1, standSession)], db := [(7, freshAccount)] }

/-- Witness for C7 on a concrete engine state with one playing session. -/
theorem session_lifecycle_witness :
    noFinished lifecycleSt.games = true ∧
    lookupGame 2 lifecycleSt.games = none ∧
    (hit 2 lifecycleSt = (lifecycleSt, ActOutcome.notFound) ∧
      stand 2 lifecycleSt = (lifecycleSt, ActOutcome.notFound) ∧
      noFinished (hit 1 lifecycleSt).1.games = true ∧
      noFinished (stand 1 lifecycleSt).1.games = true ∧
      noFinished (play deckPlain 7 100 3 lifecycleSt).1.games = true) :=
  ⟨by decide, by decide,
    session_lifecycle lifecycleSt 2 1 7 100 deckPlain (by decide) (by decide)⟩

/-! ## C9 — rank and the 1000-entry truncation -/

theorem sortDesc_const (k : Int) :
    ∀ l : List (Nat × Int), (∀ e ∈ l, e.2 = k) → sortDesc l = l := by
  intro l
  induction l with
  | nil => intro _; rfl
  | cons x xs ih =>
      intro h
      have hx : x.2 = k := h x (by simp)
      have hxs : ∀ e ∈ xs, e.2 = k := fun e he => h e (by simp [he])
      simp only [sortDesc, ih hxs]
      cases xs with
      | nil => rfl
      | cons y ys =>
          have hy : y.2 = k := hxs y (by simp)
          simp [insertDesc, hx, hy]

theorem rankScan_append (uid : Nat) (l1 l2 : List (Nat × Int)) :
    rankScan uid (l1 ++ l2) =
      match rankScan uid l1 with
      | some r => some r
      | none => (rankScan uid l2).map (· + l1.length) := by
  induction l1 with
  | nil =>
      cases h : rankScan uid l2 <;> simp [rankScan, h]
  | cons e rest ih =>
      by_cases hk : (e.1 == uid) = true
      · simp [rankScan, hk]
      · have hL : rankScan uid ((e :: rest) ++ l2) = (rankScan uid (rest ++ l2)).map (· + 1) := by
          simp [rankScan, hk]
        have hR : rankScan uid (e :: rest) = (rankScan uid rest).map (· + 1) := by
          simp [rankScan, hk]
        rw [hL, hR, ih]
        cases h2 : rankScan uid rest with
        | some r => simp
        | none =>
            cases h3 : rankScan uid l2 with
            | none => simp
            | some s =>
                simp only [Option.map_none', Option.map_some', List.length_cons,
                  Option.some.injEq]
                omega

theorem rankScan_pos {uid : Nat} {l : List (Nat × Int)} {r : Nat}
    (h : rankScan uid l = some r) : 1 ≤ r := by
  induction l generalizing r with
  | nil => simp [rankScan] at h
  | cons e rest ih =>
      by_cases hk : (e.1 == uid) = true
      · simp [rankScan, hk] at h
        omega
      · simp only [rankScan, if_neg hk] at h
        cases h2 : rankScan uid rest with
        | none => rw [h2] at h; simp at h
        | some s => rw [h2] at h; simp at h; omega

theorem rankScan_range (k : Int) (n uid : Nat) :
    rankScan uid ((List.range n).map (fun i => (i, k))) =
      if uid < n then some (uid + 1) else none := by
  induction n with
  | zero => simp [rankScan]
  | succ m ih =>
      rw [List.range_succ, List.map_append, rankScan_append, ih]
      by_cases h : uid < m
      · rw [if_pos h, if_pos (by omega)]
      · rw [if_neg h]
        by_cases he : uid = m
        · subst he
          rw [if_pos (Nat.lt_succ_self uid)]
          simp [rankScan]
          omega
        · rw [if_neg (by omega)]
          simp [rankScan, Ne.symm he]

theorem rankScan_take (uid : Nat) :
    ∀ (l : List (Nat × Int)) (n r : Nat),
      rankScan uid l = some r → r ≤ n → rankScan uid (l.take n) = some r := by
  intro l
  induction l with
  | nil => intro n r h _; simp [rankScan] at h
  | cons e rest ih =>
      intro n r h hr
      cases n with
      | zero =>
          have := rankScan_pos h
          omega
      | succ m =>
          rw [List.take_succ_cons]
          by_cases hk : (e.1 == uid) = true
          · simpa [rankScan, hk] using h
          · simp only [rankScan, if_neg hk] at h ⊢
            cases hs : rankScan uid rest with
            | none => rw [hs] at h; simp at h
            | some s =>
                rw [hs] at h
                simp only [Option.map_some', Option.some.injEq] at h
                rw [ih m s hs (by omega)]
                simpa using h

/-- A store of `n` accounts, all still at the starting balance, created in
user-id order `0, 1, …, n-1`. -/
def constStore (n : Nat) : Store := (List.range n).map (fun i => (i, freshAccount))

theorem storeRecords_const (n : Nat) :
    storeRecords (constStore n) = (List.range n).map (fun i => (i, (10000:Int))) := by
  simp only [storeRecords, constStore, List.map_map]
  rfl

theorem sortDesc_constStore (n : Nat) :
    sortDesc (storeRecords (constStore n)) = (List.range n).map (fun i => (i, (10000:Int))) := by
  rw [storeRecords_const]
  refine sortDesc_const 10000 _ ?_
  intro e he
  simp only [List.mem_map] at he
  obtain ⟨i, _, rfl⟩ := he
  rfl

/-- Counterexample to claim C9: with 1002 accounts of equal balance, user
1001 sits at position 1002 of the full balance ordering, but
`get_user_rank` only scans the first 1000 leaderboard entries and answers
`len(leaderboard) + 1 = 1001`. -/
theorem get_user_rank_truncation_counterexample :
    get_user_rank (constStore 1002) 1001 = 1001 ∧
    fullRank (constStore 1002) 1001 = some 1002 ∧
    get_user_rank (constStore 1002) 1001 ≠ 1002 := by
  have h1 : get_user_rank (constStore 1002) 1001 = 1001 := by
    simp only [get_user_rank, get_leaderboard, sortDesc_constStore]
    rw [← List.map_take, List.take_range, rankScan_range]
    norm_num
  have h2 : fullRank (constStore 1002) 1001 = some 1002 := by
    rw [fullRank, sortDesc_constStore, rankScan_range]
    norm_num
  exact ⟨h1, h2, by omega⟩

theorem mem_insertDesc {z x : Nat × Int} {l : List (Nat × Int)} :
    z ∈ insertDesc x l ↔ z = x ∨ z ∈ l := by
  induction l with
  | nil => simp [insertDesc]
  | cons y ys ih =>
      by_cases h : x.2 ≥ y.2
      · simp [insertDesc, h]
      · simp [insertDesc, h, ih]
        tauto

theorem pairwise_insertDesc (x : Nat × Int) {l : List (Nat × Int)}
    (h : List.Pairwise (fun a b : Nat × Int => b.2 ≤ a.2) l) :
    List.Pairwise (fun a b : Nat × Int => b.2 ≤ a.2) (insertDesc x l) := by
  induction l with
  | nil => simp [insertDesc]
  | cons y ys ih =>
      rw [List.pairwise_cons] at h
      obtain ⟨hy, hys⟩ := h
      by_cases hxy : x.2 ≥ y.2
      · simp only [insertDesc, if_pos hxy]
        rw [List.pairwise_cons]
        constructor
        · intro z hz
          rcases List.mem_cons.mp hz with rfl | hz
          · exact hxy
          · exact le_trans (hy z hz) hxy
        · rw [List.pairwise_cons]
          exact ⟨hy, hys⟩
      · simp only [insertDesc, if_neg hxy]
        rw [List.pairwise_cons]
        constructor
        · intro z hz
          rcases mem_insertDesc.mp hz with rfl | hz
          · omega
          · exact hy z hz
        · exact ih hys

theorem sortDesc_sorted (l : List (Nat × Int)) :
    List.Pairwise (fun a b : Nat × Int => b.2 ≤ a.2) (sortDesc l) := by
  induction l with
  | nil => simp [sortDesc]
  | cons x xs ih => exact pairwise_insertDesc x ih

theorem filter_insertDesc (b : Int) (x : Nat × Int) {l : List (Nat × Int)}
    (hs : List.Pairwise (fun a b : Nat × Int => b.2 ≤ a.2) l) :
    (insertDesc x l).filter (fun e => e.2 == b) =
      if (x.2 == b) = true then x :: l.filter (fun e => e.2 == b)
      else l.filter (fun e => e.2 == b) := by
  induction l with
  | nil =>
      simp only [insertDesc, List.filter_cons, List.filter_nil]
  | cons y ys ih =>
      rw [List.pairwise_cons] at hs
      obtain ⟨hy, hys⟩ := hs
      by_cases hxy : x.2 ≥ y.2
      · simp only [insertDesc, if_pos hxy, List.filter_cons]
      · simp only [insertDesc, if_neg hxy, List.filter_cons, ih hys]
        by_cases hxb : (x.2 == b) = true
        · have hxval : x.2 = b := by simpa using hxb
          have hyval : y.2 ≠ b := by omega
          have hyb : (y.2 == b) = false := by simpa using hyval
          simp [hxb, hyb]
        · simp [hxb]

theorem sortDesc_stable (b : Int) (l : List (Nat × Int)) :
    (sortDesc l).filter (fun e => e.2 == b) = l.filter (fun e => e.2 == b) := by
  induction l with
  | nil => rfl
  | cons x xs ih =>
      simp only [sortDesc]
      rw [filter_insertDesc b x (sortDesc_sorted xs), ih, List.filter_cons]

/-- Claim C9 amended: `get_user_rank` equals the 1-based position in the
full stable balance-descending ordering whenever that position is within
the first 1000 entries (beyond those the code answers 1001 regardless);
the ordering itself is balance-descending and stable, i.e. records of any
one balance appear in their store insertion order. -/
theorem get_user_rank_within_top1000 (s : Store) (uid r : Nat) (b : Int)
    (h : fullRank s uid = some r) (hr : r ≤ 1000) :
    get_user_rank s uid = r ∧
    List.Pairwise (fun x y : Nat × Int => y.2 ≤ x.2) (sortDesc (storeRecords s)) ∧
    (sortDesc (storeRecords s)).filter (fun e => e.2 == b) =
      (storeRecords s).filter (fun e => e.2 == b) := by
  refine ⟨?_, sortDesc_sorted _, sortDesc_stable _ _⟩
  rw [fullRank] at h
  simp only [get_user_rank, get_leaderboard]
  rw [rankScan_take uid _ 1000 r h hr]

/-- Two equal-balance accounts, user 5 registered before user 6. -/
def smallStore : Store := [(5, freshAccount), (6, freshAccount)]

/-- Witness for the amended C9 on a two-user store with tied balances. -/
theorem get_user_rank_within_top1000_witness :
    fullRank smallStore 6 = some 2 ∧ 2 ≤ 1000 ∧
    (get_user_rank smallStore 6 = 2 ∧
      List.Pairwise (fun x y : Nat × Int => y.2 ≤ x.2) (sortDesc (storeRecords smallStore)) ∧
      (sortDesc (storeRecords smallStore)).filter (fun e => e.2 == (10000:Int)) =
        (storeRecords smallStore).filter (fun e => e.2 == (10000:Int))) :=
  ⟨by decide, by decide,
    get_user_rank_within_top1000 smallStore 6 2 10000 (by decide) (by decide)⟩

/-! ## C8 — the eviction sweep versus live cooldowns -/

theorem lookupAction_eq_none {action : String} {m : List (String × Int)}
    (h : ∀ q ∈ m, (q.1 == action) = false) : lookupAction action m = none := by
  rw [lookupAction, Option.map_eq_none', List.find?_eq_none]
  intro x hx
  simp [h x hx]

theorem mem_of_lookupAction {action : String} {m : List (String × Int)} {v : Int}
    (h : lookupAction action m = some v) : ∃ q ∈ m, q.1 = action ∧ q.2 = v := by
  simp only [lookupAction, Option.map_eq_some'] at h
  obtain ⟨q, hf, rfl⟩ := h
  refine ⟨q, List.mem_of_find?_eq_some hf, ?_, rfl⟩
  have := List.find?_some hf
  simpa using this

theorem lookupAction_filter (action : String) (keep : Int → Bool) :
    ∀ (m : List (String × Int)), (m.map Prod.fst).Nodup →
      lookupAction action (m.filter (fun q => keep q.2)) =
        match lookupAction action m with
        | some v => if keep v then some v else none
        | none => none := by
  intro m
  induction m with
  | nil => intro _; rfl
  | cons q rest ih =>
      intro hnd
      rw [List.map_cons, List.nodup_cons] at hnd
      obtain ⟨hq, hrest⟩ := hnd
      by_cases hk : (q.1 == action) = true
      · have hql : lookupAction action (q :: rest) = some q.2 := by
          simp [lookupAction, List.find?_cons_of_pos, hk]
        rw [hql]
        by_cases hkeep : keep q.2 = true
        · rw [List.filter_cons_of_pos (by simpa using hkeep)]
          simp [lookupAction, List.find?_cons_of_pos, hk, hkeep]
        · rw [List.filter_cons_of_neg (by simpa using hkeep)]
          show lookupAction action (rest.filter (fun r => keep r.2)) =
            if keep q.2 = true then some q.2 else none
          rw [if_neg hkeep]
          refine lookupAction_eq_none ?_
          intro x hx
          have hxr : x ∈ rest := List.mem_of_mem_filter hx
          cases hxa : (x.1 == action) with
          | false => rfl
          | true =>
              exfalso
              have hx1 : x.1 = action := by simpa using hxa
              have hq1 : q.1 = action := by simpa using hk
              exact hq (by rw [hq1, ← hx1]; exact List.mem_map_of_mem Prod.fst hxr)
      · have hql : lookupAction action (q :: rest) = lookupAction action rest := by
          simp [lookupAction, List.find?_cons_of_neg, hk]
        rw [hql]
        by_cases hkeep : keep q.2 = true
        · rw [List.filter_cons_of_pos (by simpa using hkeep)]
          have hstep : lookupAction action (q :: rest.filter (fun r => keep r.2)) =
              lookupAction action (rest.filter (fun r => keep r.2)) := by
            simp [lookupAction, List.find?_cons_of_neg, hk]
          rw [hstep, ih hrest]
        · rw [List.filter_cons_of_neg (by simpa using hkeep)]
          exact ih hrest

theorem userActions_cons_pos {uid k : Nat} {m : List (String × Int)}
    {rest : List (Nat × List (String × Int))} (h : (k == uid) = true) :
    userActions uid ((k, m) :: rest) = m := by
  simp [userActions, List.find?_cons_of_pos, h]

theorem userActions_cons_neg {uid k : Nat} {m : List (String × Int)}
    {rest : List (Nat × List (String × Int))} (h : ¬((k == uid) = true)) :
    userActions uid ((k, m) :: rest) = userActions uid rest := by
  simp [userActions, List.find?_cons_of_neg, h]

theorem userActions_nil_of_keys {uid : Nat} {ucs : List (Nat × List (String × Int))}
    (h : ∀ p ∈ ucs, (p.1 == uid) = false) : userActions uid ucs = [] := by
  have : ucs.find? (fun p => p.1 == uid) = none := by
    rw [List.find?_eq_none]
    intro x hx
    simp [h x hx]
  simp [userActions, this]

/-- How the sweep of `cleanup_old_entries` looks from one `(user, action)`
cell: the recorded time survives exactly when its age at sweep time is
within the horizon; dropped cells (and dropped users) read as absent. -/
theorem lookupAction_userActions_cleanup (now maxAge : Int) (uid : Nat) (action : String) :
    ∀ (ucs : List (Nat × List (String × Int))),
      (ucs.map Prod.fst).Nodup →
      (∀ p ∈ ucs, (p.2.map Prod.fst).Nodup) →
      lookupAction action (userActions uid
          ((ucs.map (fun p => (p.1, p.2.filter (fun q => !(now - q.2 > maxAge))))).filter
            (fun p => !p.2.isEmpty))) =
        match lookupAction action (userActions uid ucs) with
        | some v => if now - v > maxAge then none else some v
        | none => none := by
  intro ucs
  induction ucs with
  | nil => intro _ _; rfl
  | cons u rest ih =>
      intro hnd hin
      obtain ⟨k, m⟩ := u
      rw [List.map_cons, List.nodup_cons] at hnd
      obtain ⟨hu1, hrest⟩ := hnd
      have hinRest : ∀ p ∈ rest, (p.2.map Prod.fst).Nodup :=
        fun p hp => hin p (List.mem_cons_of_mem (k, m) hp)
      by_cases hu : (k == uid) = true
      · rw [userActions_cons_pos hu]
        simp only [List.map_cons]
        by_cases he : (m.filter (fun q => !(now - q.2 > maxAge))).isEmpty = true
        · rw [List.filter_cons_of_neg (by simpa using he)]
          have hdrop : ∀ p ∈ (rest.map
              (fun p => (p.1, p.2.filter (fun q => !(now - q.2 > maxAge))))).filter
                (fun p => !p.2.isEmpty), (p.1 == uid) = false := by
            intro p hp
            have hpm := List.mem_of_mem_filter hp
            simp only [List.mem_map] at hpm
            obtain ⟨r, hr, rfl⟩ := hpm
            cases hra : (r.1 == uid) with
            | false => rfl
            | true =>
                exfalso
                have h1 : r.1 = uid := by simpa using hra
                have h2 : k = uid := by simpa using hu
                have hmem : r.1 ∈ List.map Prod.fst rest := List.mem_map_of_mem Prod.fst hr
                rw [h1, ← h2] at hmem
                exact hu1 hmem
          rw [userActions_nil_of_keys hdrop]
          have hempt : m.filter (fun q => !(now - q.2 > maxAge)) = [] := by
            simpa [List.isEmpty_iff] using he
          cases hv : lookupAction action m with
          | none => rfl
          | some v =>
              obtain ⟨q, hqm, hqa, hqv⟩ := mem_of_lookupAction hv
              have hkeepf : (!(now - q.2 > maxAge)) = false := by
                cases hkf : (!(now - q.2 > maxAge)) with
                | false => rfl
                | true =>
                    exfalso
                    have : q ∈ m.filter (fun r => !(now - r.2 > maxAge)) :=
                      List.mem_filter.mpr ⟨hqm, hkf⟩
                    rw [hempt] at this
                    simp at this
              have hev : now - v > maxAge := by
                rw [← hqv]
                simpa using hkeepf
              show lookupAction action [] = if now - v > maxAge then none else some v
              rw [if_pos hev]
              rfl
        · rw [List.filter_cons_of_pos (by simpa using he)]
          rw [userActions_cons_pos hu]
          rw [lookupAction_filter action (fun v => !(now - v > maxAge)) m
            (hin (k, m) (List.mem_cons_self (k, m) rest))]
          cases lookupAction action m with
          | none => rfl
          | some v => by_cases hvv : now - v > maxAge <;> simp [hvv]
      · rw [userActions_cons_neg hu]
        simp only [List.map_cons]
        by_cases he : (m.filter (fun q => !(now - q.2 > maxAge))).isEmpty = true
        · rw [List.filter_cons_of_neg (by simpa using he)]
          exact ih hrest hinRest
        · rw [List.filter_cons_of_pos (by simpa using he)]
          rw [userActions_cons_neg hu]
          exact ih hrest hinRest

/-- A limiter state with the default cooldown table and one user who
claimed the daily bonus at time 0. -/
def sweepState : RLState :=
  { cooldowns := defaultCooldowns, userCooldowns := [(1, [("daily", 0)])] }

/-- Counterexample to claim C8 as stated for every horizon: with a 1-hour
eviction horizon, sweeping at t = 7200 evicts the daily entry recorded at
t = 0 although its 24-hour cooldown is nowhere near elapsed, flipping the
same `check_rate_limit` call from denied to allowed. -/
theorem cleanup_allows_before_cooldown :
    lookupAction "daily" sweepState.cooldowns = some 86400 ∧
    (check_rate_limit sweepState 7200 1 "daily").1 = false ∧
    (check_rate_limit (cleanup_old_entries 7200 1 sweepState) 7200 1 "daily").1 = true := by
  refine ⟨by decide, by decide, by decide⟩

/-- Claim C8 amended: when the eviction horizon dominates every configured
cooldown (in particular the default 24-hour horizon over the default
table), the sweep never changes the outcome of any later `check_rate_limit`
call: it only evicts entries whose own cooldown has already elapsed.  The
association lists are assumed duplicate-free, as every limiter operation
keeps them. -/
theorem cleanup_preserves_allow (st : RLState) (now sweepTime maxAgeHours : Int)
    (uid : Nat) (action : String)
    (hhor : st.cooldowns.all (fun p => decide (p.2 ≤ maxAgeHours * 3600)) = true)
    (hts : sweepTime ≤ now)
    (hnd1 : (st.userCooldowns.map Prod.fst).Nodup)
    (hnd2 : st.userCooldowns.all (fun p => decide ((p.2.map Prod.fst).Nodup)) = true) :
    (check_rate_limit (cleanup_old_entries sweepTime maxAgeHours st) now uid action).1 =
      (check_rate_limit st now uid action).1 := by
  have hnd2' : ∀ p ∈ st.userCooldowns, (p.2.map Prod.fst).Nodup := by
    rw [List.all_eq_true] at hnd2
    intro p hp
    simpa using hnd2 p hp
  have hkey := lookupAction_userActions_cleanup sweepTime (maxAgeHours * 3600) uid action
    st.userCooldowns hnd1 hnd2'
  have hcool : (cleanup_old_entries sweepTime maxAgeHours st).cooldowns = st.cooldowns := rfl
  have hucs : (cleanup_old_entries sweepTime maxAgeHours st).userCooldowns =
      (st.userCooldowns.map
        (fun p => (p.1, p.2.filter (fun q => !(sweepTime - q.2 > maxAgeHours * 3600))))).filter
        (fun p => !p.2.isEmpty) := rfl
  cases hcd : lookupAction action st.cooldowns with
  | none => simp [check_rate_limit, hcool, hcd]
  | some cd =>
      simp only [check_rate_limit, hcool, hucs, hcd]
      rw [hkey]
      cases hlast : lookupAction action (userActions uid st.userCooldowns) with
      | none => rfl
      | some last =>
          by_cases hev : sweepTime - last > maxAgeHours * 3600
          · have hcds : cd ≤ maxAgeHours * 3600 := by
              obtain ⟨q, hqm, hqa, hqv⟩ := mem_of_lookupAction hcd
              rw [List.all_eq_true] at hhor
              have := hhor q hqm
              simp only [decide_eq_true_eq] at this
              omega
            have hno : ¬(now - last < cd) := by omega
            simp [hev, hno]
          · simp only [if_neg hev]
            by_cases hda : now - last < cd <;> simp [hda, hev]

/-- Witness for the amended C8: the default 24-hour horizon over the
default cooldown table, swept and queried at t = 7200. -/
theorem cleanup_preserves_allow_witness :
    sweepState.cooldowns.all (fun p => decide (p.2 ≤ (24:Int) * 3600)) = true ∧
    (7200:Int) ≤ 7200 ∧
    (sweepState.userCooldowns.map Prod.fst).Nodup ∧
    sweepState.userCooldowns.all (fun p => decide ((p.2.map Prod.fst).Nodup)) = true ∧
    (check_rate_limit (cleanup_old_entries 7200 24 sweepState) 7200 1 "daily").1 =
      (check_rate_limit sweepState 7200 1 "daily").1 :=
  ⟨by decide, by decide, by decide, by decide,
    cleanup_preserves_allow sweepState 7200 7200 24 1 "daily"
      (by decide) (by decide) (by decide) (by decide)⟩

end Casino
